import Mathlib

/-!
Verification of the raw-socket listener and TCP reassembly core of the
httpcap sniffer.  The Go sources are embedded shallowly: byte buffers are
lists of naturals (each < 256 in intended use), Go slices that carry spare
capacity are a pair of the logical slice and the bytes beyond its length,
fallible code (code that can hit an index-out-of-range panic) returns
`Option`, and the mutation performed by the sorting accessors is made
explicit by returning the post-call packet slice alongside the value.
-/

namespace HttpCap

/-- binary.BigEndian.Uint16 over a byte list: big-endian 16-bit read at
offset `i`. -/
def u16 (b : List Nat) (i : Nat) : Nat :=
  (b.getD i 0) <<< 8 ||| b.getD (i + 1) 0

/-- binary.BigEndian.Uint32 over a byte list: big-endian 32-bit read at
offset `i`. -/
def u32 (b : List Nat) (i : Nat) : Nat :=
  (b.getD i 0) <<< 24 ||| (b.getD (i + 1) 0) <<< 16 |||
    (b.getD (i + 2) 0) <<< 8 ||| b.getD (i + 3) 0

/-- The decoded TCP packet of tcp_packet.go.  `Data` is the `Data` slice
after `ParseBasic` re-slices it, i.e. the payload (`tcp.Payload` in
tcp_message.go); `Addr` stands for the peer net.Addr's string form. -/
structure TCPPacket where
  SrcPort : Nat
  DestPort : Nat
  Seq : Nat
  Ack : Nat
  DataOffset : Nat
  Flags : Nat
  Window : Nat
  Checksum : Nat
  Urgent : Nat
  Data : List Nat
  Addr : String
  SrcIP : String
  DestIP : String
deriving DecidableEq

/-- ParseBasic of tcp_packet.go: decode ports, sequence, acknowledgment and
data offset, then re-slice `Data` to the payload.  The buffer is allocated
with capacity equal to its length (`make([]byte, len(buf))`), so the header
reads demand 13 bytes and the payload re-slice demands
`DataOffset * 4 ≤ len`; `none` models the index-out-of-range panic
otherwise.  Fields `Parse` alone would set stay at their Go zero values. -/
def ParseBasic (b : List Nat) : Option TCPPacket :=
  if 12 < b.length then
    let off := (b.getD 12 0 &&& 0xF0) >>> 4
    if off * 4 ≤ b.length then
      some { SrcPort := u16 b 0, DestPort := u16 b 2, Seq := u32 b 4,
             Ack := u32 b 8, DataOffset := off,
             Flags := 0, Window := 0, Checksum := 0, Urgent := 0,
             Data := b.drop (off * 4), Addr := "", SrcIP := "", DestIP := "" }
    else none
  else none

/-- ParseTCPPacket of tcp_packet.go: ParseBasic plus the address context. -/
def ParseTCPPacket (addr src_ip dest_ip : String) (b : List Nat) :
    Option TCPPacket :=
  (ParseBasic b).map fun p =>
    { p with Addr := addr, SrcIP := src_ip, DestIP := dest_ip }

/-- The message key of processTCPPacket:
`packet.Addr.String() + strconv.Itoa(int(packet.Ack))`. -/
def msgKey (p : TCPPacket) : String :=
  p.Addr ++ toString p.Ack

/-- isHeartbeatPackage of listener.go: payload length (as Go int
subtraction) is exactly one and the last byte of the buffer is zero. -/
def isHeartbeatPackage (buf : List Nat) (dataOffset : Nat) : Bool :=
  decide ((buf.length : Int) - (dataOffset * 4 : Nat) = 1) &&
    decide (buf.getD (buf.length - 1) 0 = 0)

/-- isIncomingDataPacket of listener.go.  `buf` is the logical slice
`buf[:n]`; `ext` is the content of the underlying array beyond `n` (the
reusable read buffer has capacity 8192, so the re-slicings `buf[:2]` and
`buf[2:4]` read from capacity without a panic even when `n < 4`).  The
indexing `buf[12]` checks the slice length, so `none` models the
index-out-of-range panic when it is reached with `n ≤ 12`. -/
def isIncomingDataPacket (port : Int) (buf ext : List Nat) : Option Bool :=
  if buf.length + ext.length < 4 then none
  else
    let src_port := u16 (buf ++ ext) 0
    let dest_port := u16 (buf ++ ext) 2
    if port ≤ 0 then
      if 12 < buf.length then
        let dataOffset := (buf.getD 12 0 &&& 0xF0) >>> 4
        some (decide (dataOffset * 4 < buf.length) &&
          !isHeartbeatPackage buf dataOffset)
      else none
    else
      if (dest_port : Int) = port ∨ (src_port : Int) = port then
        if 12 < buf.length then
          let dataOffset := (buf.getD 12 0 &&& 0xF0) >>> 4
          some (decide (dataOffset * 4 < buf.length) &&
            !isHeartbeatPackage buf dataOffset)
        else none
      else some false

/-- stripIPv4Header of listener.go.  `n` is the read length, `b` the full
underlying buffer.  `copy(b, b[l:])` moves `len(b) - l` bytes to the front
and leaves the tail as it was, so the post-call buffer is
`b.drop l ++ b.drop (b.length - l)`. -/
def stripIPv4Header (n : Int) (b : List Nat) : Int × List Nat :=
  if b.length < 20 then (n, b)
  else
    let l := (b.getD 0 0 &&& 0x0f) <<< 2
    if 20 > l ∨ l > b.length then (n, b)
    else if b.getD 0 0 >>> 4 ≠ 4 then (n, b)
    else (n - (l : Int), b.drop l ++ b.drop (b.length - l))

/-- Ascending comparison on sequence numbers, the order BySeq sorts by. -/
def seqLE (p q : TCPPacket) : Prop := p.Seq ≤ q.Seq

instance : DecidableRel seqLE :=
  fun p q => inferInstanceAs (Decidable (p.Seq ≤ q.Seq))

instance : IsTotal TCPPacket seqLE := ⟨fun a b => Nat.le_total a.Seq b.Seq⟩

instance : IsTrans TCPPacket seqLE := ⟨fun _ _ _ h h2 => Nat.le_trans h h2⟩

/-- sort.Sort(BySeq(t.packets)): a permutation of the slice sorted by
ascending 32-bit sequence number. -/
def sortBySeq (ps : List TCPPacket) : List TCPPacket :=
  List.insertionSort seqLE ps

/-- AddPacket of tcp_message.go at the level of the packet slice: append
the packet unless one with the same sequence number is already held. -/
def AddPacket (ps : List TCPPacket) (p : TCPPacket) : List TCPPacket :=
  if ps.any fun q => q.Seq == p.Seq then ps else ps ++ [p]

/-- The packets a message holds after its arrivals were fed one by one
through AddPacket, starting from the empty slice of a fresh message. -/
def heldPackets (arrivals : List TCPPacket) : List TCPPacket :=
  arrivals.foldl AddPacket []

/-- Bytes of tcp_message.go: sort the held packets in place by sequence,
then concatenate their payloads.  The returned pair is (output, the packet
slice after the in-place sort). -/
def Bytes (ps : List TCPPacket) : List Nat × List TCPPacket :=
  (((sortBySeq ps).map fun p => p.Data).flatten, sortBySeq ps)

/-- SourcePort of tcp_message.go: the first packet of the slice in its
current stored order, or 0 when none is held. -/
def SourcePort (ps : List TCPPacket) : Nat :=
  match ps with
  | [] => 0
  | p :: _ => p.SrcPort

/-- DestinationPort of tcp_message.go. -/
def DestinationPort (ps : List TCPPacket) : Nat :=
  match ps with
  | [] => 0
  | p :: _ => p.DestPort

/-- SourceIP of tcp_message.go. -/
def SourceIP (ps : List TCPPacket) : String :=
  match ps with
  | [] => "0.0.0.0"
  | p :: _ => p.SrcIP

/-- DestinationIP of tcp_message.go. -/
def DestinationIP (ps : List TCPPacket) : String :=
  match ps with
  | [] => "0.0.0.0"
  | p :: _ => p.DestIP

/-- SequenceNumber of tcp_message.go: sort in place, then report the first
packet's sequence, or 0 when none is held.  The pair is (value, post-call
slice). -/
def SequenceNumber (ps : List TCPPacket) : Nat × List TCPPacket :=
  (match sortBySeq ps with
   | [] => 0
   | p :: _ => p.Seq,
   sortBySeq ps)

/-- The state of a message's unbuffered inbound channel `c_packets`: open
with the (possibly empty) queue of senders blocked on it, or closed.  A
receive from the open channel is ready exactly when a sender is pending; a
receive from the closed channel is always ready and reports `ok = false`. -/
inductive InboundChan where
  | opn (pending : List TCPPacket) : InboundChan
  | closed : InboundChan
deriving DecidableEq

/-- The observable state of one TCPMessage: its held packets, its inbound
channel, the remaining milliseconds on the inactivity timer, and how many
completion notifications it has sent on `c_del_message`. -/
structure TMsgState where
  ID : String
  packets : List TCPPacket
  inbound : InboundChan
  timer : Nat
  delNotifications : Nat
deriving DecidableEq

/-- MSG_EXPIRE of tcp_message.go, in milliseconds. -/
def MSG_EXPIRE : Nat := 2000

/-- AddPacket of tcp_message.go on the message state: dedup-append, then
`t.timer.Reset(MSG_EXPIRE)`. -/
def AddPacketTimer (s : TMsgState) (p : TCPPacket) : TMsgState :=
  { s with packets := AddPacket s.packets p, timer := MSG_EXPIRE }

/-- Timeout of tcp_message.go.  The select prefers a ready receive on
`c_packets` over the default branch: a pending packet is accepted (and the
timer re-armed by AddPacket), a receive on the already-closed channel
returns at once with `ok = false` and the method returns, and only when no
receive is ready does the default branch close the channel and send the
completion notification. -/
def Timeout (s : TMsgState) : TMsgState :=
  match s.inbound with
  | .opn (p :: rest) => { AddPacketTimer s p with inbound := .opn rest }
  | .opn [] =>
      { s with inbound := .closed,
               delNotifications := s.delNotifications + 1 }
  | .closed => s

/-- The dispatcher state the completion branch of listen() touches: the
keys of the `messages` map and the IDs published on the outbound
`c_messages` channel, in order. -/
structure DispatcherState where
  messages : List String
  outbound : List String
deriving DecidableEq

/-- First statement of listen()'s completion branch:
`t.c_messages <- message`. -/
def publishStep (d : DispatcherState) (mid : String) : DispatcherState :=
  { d with outbound := d.outbound ++ [mid] }

/-- Second statement of listen()'s completion branch:
`delete(t.messages, message.ID)`. -/
def deleteStep (d : DispatcherState) (mid : String) : DispatcherState :=
  { d with messages := d.messages.erase mid }

/-- listen()'s whole completion branch, in source order: publish, then
delete. -/
def handleCompletion (d : DispatcherState) (mid : String) : DispatcherState :=
  deleteStep (publishStep d mid) mid

/-- The states the routing loop passes through while handling one
completion notification, one entry per executed statement; the channel
send in the middle is a synchronization point, so each of them is
observable by the concurrently running consumer. -/
def completionTrace (d : DispatcherState) (mid : String) :
    List DispatcherState :=
  [d, publishStep d mid, handleCompletion d mid]

/-- The spec's acceptance condition for the filter, stated from its words:
port match (configured port unset, or source or destination port equal to
it), payload presence (buffer longer than data offset times four), and not
a heartbeat (payload of exactly one byte which is zero). -/
def specAccept (port : Int) (buf : List Nat) : Prop :=
  (port ≤ 0 ∨ (u16 buf 0 : Int) = port ∨ (u16 buf 2 : Int) = port) ∧
  ((buf.getD 12 0 &&& 0xF0) >>> 4) * 4 < buf.length ∧
  ¬(buf.length - ((buf.getD 12 0 &&& 0xF0) >>> 4) * 4 = 1 ∧
      buf.getD (buf.length - 1) 0 = 0)

instance (port : Int) (buf : List Nat) : Decidable (specAccept port buf) := by
  unfold specAccept
  infer_instance

/-- Sample packet of a message keyed "a42": the larger sequence number,
arriving first. -/
def pHi : TCPPacket :=
  ⟨5, 15, 2000, 42, 5, 0, 0, 0, 0, [104], "a", "10.0.0.9", "10.0.0.1"⟩

/-- Sample packet of the same message: the smaller sequence number,
arriving second. -/
def pLo : TCPPacket :=
  ⟨7, 17, 1000, 42, 5, 0, 0, 0, 0, [119], "a", "10.0.0.8", "10.0.0.2"⟩

/-- Membership in an AddPacket result comes from the old slice or is the
new packet. -/
theorem mem_addPacket {ps : List TCPPacket} {p q : TCPPacket}
    (h : q ∈ AddPacket ps p) : q ∈ ps ∨ q = p := by
  unfold AddPacket at h
  split at h
  · exact Or.inl h
  · rcases List.mem_append.mp h with h1 | h1
    · exact Or.inl h1
    · exact Or.inr (List.mem_singleton.mp h1)

/-- Every packet a fold of AddPacket holds was in the accumulator or among
the arrivals. -/
theorem mem_foldl_addPacket (arr : List TCPPacket) :
    ∀ acc q, q ∈ arr.foldl AddPacket acc → q ∈ acc ∨ q ∈ arr := by
  induction arr with
  | nil => exact fun acc q h => Or.inl h
  | cons a t ih =>
      intro acc q h
      rcases ih (AddPacket acc a) q h with h1 | h1
      · rcases mem_addPacket h1 with h2 | h2
        · exact Or.inl h2
        · exact Or.inr (by simp [h2])
      · exact Or.inr (List.mem_cons_of_mem _ h1)

/-- AddPacket preserves pairwise-distinct sequence numbers. -/
theorem pairwise_addPacket {ps : List TCPPacket} (p : TCPPacket)
    (h : ps.Pairwise fun a b => a.Seq ≠ b.Seq) :
    (AddPacket ps p).Pairwise fun a b => a.Seq ≠ b.Seq := by
  unfold AddPacket
  split
  · exact h
  · rename_i hany
    rw [List.pairwise_append]
    refine ⟨h, List.pairwise_singleton _ _, ?_⟩
    intro a ha b hb
    rw [List.mem_singleton] at hb
    subst hb
    intro heq
    exact hany (List.any_eq_true.mpr ⟨a, ha, by simp [heq]⟩)

/-- The packets a message holds have pairwise-distinct sequence numbers. -/
theorem pairwise_heldPackets (arr : List TCPPacket) :
    (heldPackets arr).Pairwise fun a b => a.Seq ≠ b.Seq := by
  have key : ∀ acc : List TCPPacket,
      (acc.Pairwise fun a b => a.Seq ≠ b.Seq) →
      ((arr.foldl AddPacket acc).Pairwise fun a b => a.Seq ≠ b.Seq) := by
    induction arr with
    | nil => exact fun acc h => h
    | cons a t ih => exact fun acc h => ih _ (pairwise_addPacket a h)
  exact key [] (List.Pairwise.nil)

/-- Two sorted permutations of a packet list with pairwise-distinct
sequence numbers are equal. -/
theorem sortedPerm_eq {l₁ l₂ : List TCPPacket}
    (hd : l₁.Pairwise fun a b => a.Seq ≠ b.Seq) (hp : l₁.Perm l₂)
    (h₁ : l₁.Sorted seqLE) (h₂ : l₂.Sorted seqLE) : l₁ = l₂ := by
  have hd₂ : l₂.Pairwise fun a b => a.Seq ≠ b.Seq :=
    (hp.pairwise_iff fun h => Ne.symm h).mp hd
  have s₁ : List.Sorted (fun a b : TCPPacket => a.Seq < b.Seq) l₁ :=
    (List.Pairwise.and h₁ hd).imp fun h => lt_of_le_of_ne h.1 h.2
  have s₂ : List.Sorted (fun a b : TCPPacket => a.Seq < b.Seq) l₂ :=
    (List.Pairwise.and h₂ hd₂).imp fun h => lt_of_le_of_ne h.1 h.2
  exact @List.eq_of_perm_of_sorted _ (fun a b => a.Seq < b.Seq)
    ⟨fun _ _ h1 h2 => absurd h2 (Nat.lt_asymm h1)⟩ _ _ hp s₁ s₂

/-- Claim C3 evaluated at the failing input: a one-byte buffer (positive
read length) reaches the index `buf[12]` in isIncomingDataPacket while the
slice length is 1, an index-out-of-range panic, modelled as `none`.  The
three extension bytes stand for leftover capacity of the reusable read
buffer; the configured port is unset (0). -/
theorem C3_filter_short_buffer_panics :
    isIncomingDataPacket 0 [1] [0, 0, 0] = none ∧
    0 < ([1] : List Nat).length := by decide

/-- Claim C4 counterexample: with two held packets whose stored order
disagrees with their sequence order, SourcePort reports the first stored
packet (port 5), not the lowest-sequence packet pLo (port 7). -/
theorem C4_accessor_lowest_seq_cex :
    SourcePort [pHi, pLo] = 5 ∧
    (∀ q ∈ [pHi, pLo], pLo.Seq ≤ q.Seq) ∧
    pLo.SrcPort = 7 ∧
    SourcePort [pHi, pLo] ≠ pLo.SrcPort := by decide

/-- Claim C4 as amended: when no packets are held the accessors report
0 / "0.0.0.0"; SourcePort, DestinationPort, SourceIP and DestinationIP
report the first packet in the current stored order; SequenceNumber sorts
and reports the smallest held sequence number. -/
theorem C4_accessor_first_packet (ps : List TCPPacket) :
    (SourcePort [] = 0 ∧ DestinationPort [] = 0 ∧
     (SequenceNumber []).1 = 0 ∧
     SourceIP [] = "0.0.0.0" ∧ DestinationIP [] = "0.0.0.0") ∧
    (∀ p rest, ps = p :: rest →
      SourcePort ps = p.SrcPort ∧ DestinationPort ps = p.DestPort ∧
      SourceIP ps = p.SrcIP ∧ DestinationIP ps = p.DestIP) ∧
    (ps ≠ [] →
      ∃ p ∈ ps, (SequenceNumber ps).1 = p.Seq ∧ ∀ q ∈ ps, p.Seq ≤ q.Seq) := by
  refine ⟨⟨rfl, rfl, rfl, rfl, rfl⟩, ?_, ?_⟩
  · intro p rest hps
    subst hps
    exact ⟨rfl, rfl, rfl, rfl⟩
  · intro hne
    have hperm : (sortBySeq ps).Perm ps := List.perm_insertionSort _ _
    have hsort : (sortBySeq ps).Sorted seqLE := List.sorted_insertionSort _ _
    cases hs : sortBySeq ps with
    | nil =>
        rw [hs] at hperm
        exact absurd hperm.symm.eq_nil hne
    | cons x t =>
        refine ⟨x, ?_, ?_, ?_⟩
        · exact hperm.mem_iff.mp (by rw [hs]; exact List.mem_cons_self x t)
        · simp only [SequenceNumber, hs]
        · intro q hq
          have hq2 : q ∈ sortBySeq ps := hperm.mem_iff.mpr hq
          rw [hs] at hq2
          rcases List.mem_cons.mp hq2 with h | h
          · subst h; exact Nat.le_refl _
          · rw [hs] at hsort
            exact (List.sorted_cons.mp hsort).1 q h

/-- Claim C7: feeding a packet whose sequence number is already held
leaves the packet slice unchanged and still re-arms the timer to the full
2000 ms window. -/
theorem C7_duplicate_packet (s : TMsgState) (p : TCPPacket)
    (h : ∃ q ∈ s.packets, q.Seq = p.Seq) :
    (AddPacketTimer s p).packets = s.packets ∧
    (AddPacketTimer s p).timer = MSG_EXPIRE ∧ MSG_EXPIRE = 2000 := by
  obtain ⟨q, hq, hseq⟩ := h
  refine ⟨?_, rfl, rfl⟩
  show AddPacket s.packets p = s.packets
  unfold AddPacket
  rw [if_pos (List.any_eq_true.mpr ⟨q, hq, by simp [hseq]⟩)]

/-- Claim C7 witness at a concrete state: the message already holds pLo
and receives a packet with the same sequence number again. -/
theorem C7_duplicate_packet_witness :
    (AddPacketTimer ⟨"a42", [pLo], InboundChan.opn [], 500, 0⟩ pLo).packets =
      (⟨"a42", [pLo], InboundChan.opn [], 500, 0⟩ : TMsgState).packets ∧
    (AddPacketTimer ⟨"a42", [pLo], InboundChan.opn [], 500, 0⟩ pLo).timer =
      MSG_EXPIRE ∧ MSG_EXPIRE = 2000 :=
  C7_duplicate_packet _ pLo ⟨pLo, by simp, rfl⟩

/-- Claim C8: a Timeout firing that finds no pending packet closes the
inbound channel, sends exactly one completion notification and leaves the
held packets unchanged; every later firing observes the closed channel and
is a no-op, so the channel is closed exactly once and exactly one
notification is ever delivered. -/
theorem C8_timeout_idempotent (s : TMsgState)
    (h : s.inbound = InboundChan.opn []) :
    ((Timeout s).inbound = InboundChan.closed ∧
     (Timeout s).delNotifications = s.delNotifications + 1 ∧
     (Timeout s).packets = s.packets) ∧
    ∀ n : Nat, Timeout^[n] (Timeout s) = Timeout s := by
  have hT : Timeout s =
      { s with inbound := InboundChan.closed,
               delNotifications := s.delNotifications + 1 } := by
    unfold Timeout
    rw [h]
  have hfix : Timeout (Timeout s) = Timeout s := by
    rw [hT]
    rfl
  constructor
  · rw [hT]
    exact ⟨rfl, rfl, rfl⟩
  · intro n
    induction n with
    | zero => rfl
    | succ k ih => rw [Function.iterate_succ_apply, hfix, ih]

/-- Claim C8 witness at a concrete open message state with no pending
packet. -/
theorem C8_timeout_idempotent_witness :
    ((Timeout ⟨"a42", [pLo], InboundChan.opn [], 0, 0⟩).inbound =
       InboundChan.closed ∧
     (Timeout ⟨"a42", [pLo], InboundChan.opn [], 0, 0⟩).delNotifications =
       (⟨"a42", [pLo], InboundChan.opn [], 0, 0⟩ : TMsgState).delNotifications
         + 1 ∧
     (Timeout ⟨"a42", [pLo], InboundChan.opn [], 0, 0⟩).packets =
       (⟨"a42", [pLo], InboundChan.opn [], 0, 0⟩ : TMsgState).packets) ∧
    ∀ n : Nat,
      Timeout^[n] (Timeout ⟨"a42", [pLo], InboundChan.opn [], 0, 0⟩) =
        Timeout ⟨"a42", [pLo], InboundChan.opn [], 0, 0⟩ :=
  C8_timeout_idempotent _ rfl

/-- Claim C9 counterexample: handling the completion of message "a42" from
a dispatcher whose mapping holds exactly that key passes through a
reachable state (after the outbound channel send, before the delete) in
which the message is already published while its key is still in the
mapping. -/
theorem C9_removal_after_publish_cex :
    ∃ s ∈ completionTrace ⟨["a42"], []⟩ "a42",
      "a42" ∈ s.outbound ∧ "a42" ∈ s.messages := by decide

/-- Claim C9 as amended: the completion branch publishes the completed
message first and removes its key from the mapping immediately afterwards,
so in the state the branch leaves behind the message is published and the
key is gone — but the removal happens after, not before, the
publication. -/
theorem C9_removal_after_publish (d : DispatcherState) (mid : String)
    (hnd : d.messages.Nodup) :
    (handleCompletion d mid).outbound = d.outbound ++ [mid] ∧
    (handleCompletion d mid).messages = d.messages.erase mid ∧
    mid ∈ (handleCompletion d mid).outbound ∧
    mid ∉ (handleCompletion d mid).messages := by
  refine ⟨rfl, rfl, ?_, ?_⟩
  · exact List.mem_append.mpr (Or.inr (List.mem_singleton.mpr rfl))
  · show mid ∉ d.messages.erase mid
    exact hnd.not_mem_erase

/-- Claim C9 amended-claim witness at a concrete dispatcher state. -/
theorem C9_removal_after_publish_witness :
    (handleCompletion ⟨["a42", "b7"], []⟩ "a42").outbound = [] ++ ["a42"] ∧
    (handleCompletion ⟨["a42", "b7"], []⟩ "a42").messages =
      (["a42", "b7"].erase "a42") ∧
    "a42" ∈ (handleCompletion ⟨["a42", "b7"], []⟩ "a42").outbound ∧
    "a42" ∉ (handleCompletion ⟨["a42", "b7"], []⟩ "a42").messages :=
  C9_removal_after_publish ⟨["a42", "b7"], []⟩ "a42" (by decide)

/-- Claim C10: Bytes and SequenceNumber leave the packet slice sorted by
ascending sequence number, a different stored order than before the call,
and consequently SourcePort, DestinationPort, SourceIP and DestinationIP
change across a Bytes call even though no packet was added or removed. -/
theorem C10_sort_mutates_accessors :
    (Bytes [pHi, pLo]).2 = sortBySeq [pHi, pLo] ∧
    (SequenceNumber [pHi, pLo]).2 = sortBySeq [pHi, pLo] ∧
    sortBySeq [pHi, pLo] = [pLo, pHi] ∧
    sortBySeq [pHi, pLo] ≠ [pHi, pLo] ∧
    SourcePort [pHi, pLo] = 5 ∧ SourcePort (Bytes [pHi, pLo]).2 = 7 ∧
    DestinationPort [pHi, pLo] = 15 ∧
    DestinationPort (Bytes [pHi, pLo]).2 = 17 ∧
    SourceIP [pHi, pLo] = "10.0.0.9" ∧
    SourceIP (Bytes [pHi, pLo]).2 = "10.0.0.8" ∧
    DestinationIP [pHi, pLo] = "10.0.0.1" ∧
    DestinationIP (Bytes [pHi, pLo]).2 = "10.0.0.2" := by decide

/-- The length of the buffer is unchanged by the in-place left shift
performed with `copy(b, b[l:])`. -/
theorem length_shiftBuffer (b : List Nat) (l : Nat) :
    (b.drop l ++ b.drop (b.length - l)).length = b.length := by
  simp only [List.length_append, List.length_drop]
  omega

/-- Below the shifted-in region, the post-copy buffer reads the old buffer
at offset `l`. -/
theorem getD_shiftBuffer (b : List Nat) (l i : Nat)
    (hi : i < b.length - l) :
    (b.drop l ++ b.drop (b.length - l)).getD i 0 = b.getD (i + l) 0 := by
  rw [List.getD_eq_getElem?_getD, List.getD_eq_getElem?_getD,
      List.getElem?_append]
  rw [if_pos (by simp only [List.length_drop]; omega)]
  rw [List.getElem?_drop]
  congr 2
  omega

/-- Claim C5: stripIPv4Header leaves the read length and buffer unchanged
unless the version nibble of byte 0 is 4 and the header length (low nibble
of byte 0, times four) lies between 20 and the buffer length inclusive;
when those conditions hold it shifts the buffer left by the header length
and returns the read length minus that length. -/
theorem C5_strip_ipv4_header (n : Int) (b : List Nat) :
    if b.getD 0 0 >>> 4 = 4 ∧ 20 ≤ (b.getD 0 0 &&& 0x0f) <<< 2 ∧
        (b.getD 0 0 &&& 0x0f) <<< 2 ≤ b.length then
      (stripIPv4Header n b).1 =
        n - ((b.getD 0 0 &&& 0x0f) <<< 2 : Nat) ∧
      (stripIPv4Header n b).2.length = b.length ∧
      ∀ i : Nat, i < b.length - (b.getD 0 0 &&& 0x0f) <<< 2 →
        (stripIPv4Header n b).2.getD i 0 =
          b.getD (i + (b.getD 0 0 &&& 0x0f) <<< 2) 0
    else stripIPv4Header n b = (n, b) := by
  split
  case isTrue h =>
    obtain ⟨hv, h20, hlen⟩ := h
    have hs : stripIPv4Header n b =
        (n - ((b.getD 0 0 &&& 0x0f) <<< 2 : Nat),
         b.drop ((b.getD 0 0 &&& 0x0f) <<< 2) ++
           b.drop (b.length - (b.getD 0 0 &&& 0x0f) <<< 2)) := by
      simp only [stripIPv4Header]
      split_ifs with h1 h2 h3
      · exfalso; omega
      · exfalso; omega
      · exact absurd hv h3
      · rfl
    refine ⟨by rw [hs], ?_, ?_⟩
    · rw [hs]
      exact length_shiftBuffer b _
    · intro i hi
      rw [hs]
      exact getD_shiftBuffer b _ i hi
  case isFalse h =>
    simp only [stripIPv4Header]
    split_ifs with h1 h2 h3
    · rfl
    · rfl
    · rfl
    · exact absurd ⟨not_ne_iff.mp h3, by omega, by omega⟩ h

/-- A concrete 22-byte TCP buffer: source port 80, destination port 54321,
sequence 1000, acknowledgment 42, data offset 5, payload "hi". -/
def hdrW : List Nat :=
  [0, 80, 212, 49, 0, 0, 3, 232, 0, 0, 0, 42, 0x50, 0, 0, 0, 0, 0, 0, 0,
   104, 105]

/-- Claim C6: when the header is present (13 bytes, so the data-offset
byte exists) and the buffer reaches the payload start, the decoded packet
reads source port at bytes 0 to 1, destination port at 2 to 3, sequence at
4 to 7, acknowledgment at 8 to 11, the data offset from the high nibble of
byte 12, and takes the payload as the suffix from data-offset times four,
all big-endian. -/
theorem C6_parse_fields (addr src dest : String) (b : List Nat)
    (h13 : 13 ≤ b.length)
    (hoff : ((b.getD 12 0 &&& 0xF0) >>> 4) * 4 ≤ b.length) :
    ParseTCPPacket addr src dest b = some
      { SrcPort := u16 b 0, DestPort := u16 b 2, Seq := u32 b 4,
        Ack := u32 b 8, DataOffset := (b.getD 12 0 &&& 0xF0) >>> 4,
        Flags := 0, Window := 0, Checksum := 0, Urgent := 0,
        Data := b.drop (((b.getD 12 0 &&& 0xF0) >>> 4) * 4),
        Addr := addr, SrcIP := src, DestIP := dest } := by
  simp only [ParseTCPPacket, ParseBasic]
  rw [if_pos (by omega : 12 < b.length), if_pos hoff]
  rfl

/-- Claim C6 witness at the concrete buffer hdrW. -/
theorem C6_parse_fields_witness :
    ParseTCPPacket "9.8.7.6:0" "9.8.7.6" "1.2.3.4" hdrW = some
      { SrcPort := u16 hdrW 0, DestPort := u16 hdrW 2, Seq := u32 hdrW 4,
        Ack := u32 hdrW 8, DataOffset := (hdrW.getD 12 0 &&& 0xF0) >>> 4,
        Flags := 0, Window := 0, Checksum := 0, Urgent := 0,
        Data := hdrW.drop (((hdrW.getD 12 0 &&& 0xF0) >>> 4) * 4),
        Addr := "9.8.7.6:0", SrcIP := "9.8.7.6", DestIP := "1.2.3.4" } :=
  C6_parse_fields _ _ _ hdrW (by decide) (by decide)

/-- Reads that stay inside the logical slice do not depend on the spare
capacity beyond it. -/
theorem u16_append (buf ext : List Nat) (i : Nat) (h : i + 1 < buf.length) :
    u16 (buf ++ ext) i = u16 buf i := by
  unfold u16
  rw [List.getD_append _ _ _ _ (by omega), List.getD_append _ _ _ _ (by omega)]

/-- The heartbeat test holds exactly when the payload is a single byte
equal to zero (the Go int subtraction agrees with the truncated Nat one
here, both directions forcing the length to be data offset times four plus
one). -/
theorem isHeartbeat_iff (buf : List Nat) (off : Nat) :
    isHeartbeatPackage buf off = true ↔
      (buf.length - off * 4 = 1 ∧ buf.getD (buf.length - 1) 0 = 0) := by
  unfold isHeartbeatPackage
  rw [Bool.and_eq_true, decide_eq_true_eq, decide_eq_true_eq]
  constructor
  · rintro ⟨h1, h2⟩
    exact ⟨by omega, h2⟩
  · rintro ⟨h1, h2⟩
    exact ⟨by omega, h2⟩

/-- The payload-presence and no-heartbeat part of the filter, as a
proposition. -/
theorem acceptBody_iff (buf : List Nat) (off : Nat) :
    (decide (off * 4 < buf.length) && !isHeartbeatPackage buf off) = true ↔
      (off * 4 < buf.length ∧
       ¬(buf.length - off * 4 = 1 ∧ buf.getD (buf.length - 1) 0 = 0)) := by
  rw [Bool.and_eq_true, decide_eq_true_eq, Bool.not_eq_true',
      ← Bool.not_eq_true, isHeartbeat_iff]

/-- Claim C2: on any buffer whose slice is at least 13 bytes (so the
data-offset byte is inside the slice and no panic occurs), the filter
returns a value, and it returns true exactly when the spec's three
conditions hold: port unset or matching source or destination port,
buffer longer than data-offset times four, and not a one-byte zero
heartbeat payload (a one-byte 0x01 payload passes the last test). -/
theorem C2_filter_accept (port : Int) (buf ext : List Nat)
    (h13 : 13 ≤ buf.length) :
    (∃ r, isIncomingDataPacket port buf ext = some r) ∧
    (isIncomingDataPacket port buf ext = some true ↔ specAccept port buf) := by
  have hs0 : u16 (buf ++ ext) 0 = u16 buf 0 := u16_append _ _ _ (by omega)
  have hs2 : u16 (buf ++ ext) 2 = u16 buf 2 := u16_append _ _ _ (by omega)
  simp only [isIncomingDataPacket]
  rw [if_neg (by omega : ¬ buf.length + ext.length < 4), hs0, hs2]
  by_cases hp : port ≤ 0
  · rw [if_pos hp, if_pos (show 12 < buf.length by omega)]
    refine ⟨⟨_, rfl⟩, ?_⟩
    rw [Option.some_inj, acceptBody_iff]
    unfold specAccept
    constructor
    · exact fun h => ⟨Or.inl hp, h.1, h.2⟩
    · exact fun h => ⟨h.2.1, h.2.2⟩
  · rw [if_neg hp]
    by_cases hm : (u16 buf 2 : Int) = port ∨ (u16 buf 0 : Int) = port
    · rw [if_pos hm, if_pos (show 12 < buf.length by omega)]
      refine ⟨⟨_, rfl⟩, ?_⟩
      rw [Option.some_inj, acceptBody_iff]
      unfold specAccept
      constructor
      · exact fun h =>
          ⟨Or.inr (hm.elim (fun h2 => Or.inr h2) fun h2 => Or.inl h2),
           h.1, h.2⟩
      · exact fun h => ⟨h.2.1, h.2.2⟩
    · rw [if_neg hm]
      refine ⟨⟨false, rfl⟩, ?_⟩
      refine iff_of_false (by simp) ?_
      rintro ⟨pc, _, _⟩
      rcases pc with h | h | h
      · exact hp h
      · exact hm (Or.inr h)
      · exact hm (Or.inl h)

/-- Claim C2 witness at the concrete buffer hdrW with configured port
80. -/
theorem C2_filter_accept_witness :
    (∃ r, isIncomingDataPacket 80 hdrW [] = some r) ∧
    (isIncomingDataPacket 80 hdrW [] = some true ↔ specAccept 80 hdrW) :=
  C2_filter_accept 80 hdrW [] (by decide)

/-- Claim C1: a completed message built by feeding its arrivals (all
sharing the message key, as the dispatcher routes them) through AddPacket
holds packets that all share the key and have pairwise-distinct sequence
numbers, and Bytes returns the concatenation of the payloads taken in
ascending sequence order — stated for every ascending arrangement of the
held packets, which is unique because the sequence numbers are
distinct. -/
theorem C1_message_bytes (arrivals : List TCPPacket) (k : String)
    (hk : ∀ p ∈ arrivals, msgKey p = k) :
    (∀ p ∈ heldPackets arrivals, msgKey p = k) ∧
    ((heldPackets arrivals).Pairwise fun a b => a.Seq ≠ b.Seq) ∧
    ∀ l : List TCPPacket, l.Perm (heldPackets arrivals) → l.Sorted seqLE →
      (Bytes (heldPackets arrivals)).1 = (l.map fun p => p.Data).flatten := by
  refine ⟨?_, pairwise_heldPackets arrivals, ?_⟩
  · intro p hp
    rcases mem_foldl_addPacket arrivals [] p hp with h | h
    · simp at h
    · exact hk p h
  · intro l hperm hsort
    have hsps : (sortBySeq (heldPackets arrivals)).Sorted seqLE :=
      List.sorted_insertionSort _ _
    have hpp : (sortBySeq (heldPackets arrivals)).Perm (heldPackets arrivals) :=
      List.perm_insertionSort _ _
    have hdl : l.Pairwise fun a b => a.Seq ≠ b.Seq :=
      (hperm.pairwise_iff fun h => Ne.symm h).mpr (pairwise_heldPackets arrivals)
    have hlp : l.Perm (sortBySeq (heldPackets arrivals)) := hperm.trans hpp.symm
    have heq : l = sortBySeq (heldPackets arrivals) :=
      sortedPerm_eq hdl hlp hsort hsps
    rw [heq]
    rfl

/-- Claim C1 witness: the two-packet message keyed "a42", fed in reverse
sequence order. -/
theorem C1_message_bytes_witness :
    (∀ p ∈ heldPackets [pHi, pLo], msgKey p = "a42") ∧
    ((heldPackets [pHi, pLo]).Pairwise fun a b => a.Seq ≠ b.Seq) ∧
    ∀ l : List TCPPacket, l.Perm (heldPackets [pHi, pLo]) → l.Sorted seqLE →
      (Bytes (heldPackets [pHi, pLo])).1 = (l.map fun p => p.Data).flatten :=
  C1_message_bytes [pHi, pLo] "a42" (by decide)

end HttpCap
